import Mathlib

/-!
Shallow embedding of the AlpacaLumnisTrader live-trading loop
(`AlpacaLumnisTrader/AlpacaLumnisTrader.py`) together with proofs of the
behavioural properties stated in the design document.

Timestamps are modelled as natural numbers, monetary quantities and prices as
rationals, and a per-symbol time series as an association list from timestamp
to row value.  The pandas pipeline `pd.concat` / `~index.duplicated(keep='first')`
/ `sort_index()` used by `update_history` is embedded as list concatenation,
first-occurrence key deduplication, and a stable insertion sort on keys.
-/

namespace AlpacaLumnis

/-- A per-symbol time series: rows keyed by timestamp, in storage order. -/
abbrev Series (α : Type) := List (Nat × α)

/-- Key ordering used by `sort_index()`: compare rows by timestamp. -/
def keyLE {α : Type} (p q : Nat × α) : Prop := p.1 ≤ q.1

instance {α : Type} : DecidableRel (keyLE (α := α)) := fun p q => Nat.decLe p.1 q.1

instance {α : Type} : IsTotal (Nat × α) keyLE := ⟨fun p q => Nat.le_total p.1 q.1⟩

instance {α : Type} : IsTrans (Nat × α) keyLE := ⟨fun _ _ _ h1 h2 => Nat.le_trans h1 h2⟩

/-- Embedding of `df[~df.index.duplicated(keep='first')]`: drop every row whose
timestamp was already seen earlier (the `seen` accumulator holds keys already
emitted). -/
def dedupKeysAux {α : Type} (seen : List Nat) : Series α → Series α
  | [] => []
  | p :: rest =>
    if p.1 ∈ seen then dedupKeysAux seen rest
    else p :: dedupKeysAux (p.1 :: seen) rest

/-- Drop duplicate timestamps, keeping the first occurrence. -/
def dedupKeys {α : Type} (s : Series α) : Series α := dedupKeysAux [] s

/-- The merge step of `update_history` (lines 459-460 / 465-466 of the source):
concatenate the live window onto the stored series, drop duplicate timestamps
keeping the first occurrence, and sort ascending by timestamp. -/
def merge {α : Type} (stored live : Series α) : Series α :=
  List.insertionSort keyLE (dedupKeys (stored ++ live))

/-- A series has strictly increasing timestamps (hence no duplicates). -/
def StrictByKey {α : Type} (s : Series α) : Prop :=
  s.Pairwise fun p q => p.1 < q.1

/-- Symbol strings are modelled as lists of characters.  Embedding of Python's
`symbol.replace("/", "")`: remove every slash. -/
def stripSlash (s : List Char) : List Char := s.filter (fun c => c ≠ '/')

/-- Embedding of Python's `int(...)` applied to a rational: truncation toward
zero. -/
def pyInt (q : ℚ) : ℤ := if q < 0 then ⌈q⌉ else ⌊q⌋

/-- Per-symbol cash allocation of a cycle (source lines 108-109):
`cash_asset = int(float(account.cash) * 0.9 / len(tradable_assets))`. -/
def cash_asset (cash : ℚ) (n : ℕ) : ℤ := pyInt (cash * (9/10) / n)

/-- The Alpaca transaction-cost constant (source line 63): `0.0015`. -/
def ALPACA_TC : ℚ := 15 / 10000

/-- Volatility clamping of the cycle (source lines 130-131):
`vol = min(vol, 0.1); vol = max(vol, ALPACA_TC * 15)`. -/
def clampVol (tc v : ℚ) : ℚ := max (min v (1/10)) (tc * 15)

/-- Take-profit bracket level (source line 136): `close + tp * vol * close`. -/
def take_profit_price (tp vol close : ℚ) : ℚ := close + tp * vol * close

/-- Stop-loss bracket level (source line 137): `close - sl * vol * close`. -/
def stop_loss_price (sl vol close : ℚ) : ℚ := close - sl * vol * close

/-- The strategy name with a registered implementation, as a character list. -/
def macdName : List Char := ['m', 'a', 'c', 'd']

/-- Embedding of `get_signal` (source lines 145-167).  The post-`standardize`
value of the `vpin_500` column at the last row is taken as an input, since
`standardize` lives in the (absent) `utils` module; the branch on the strategy
name and the threshold comparison `(df['vpin_500'].iloc[-1] > 2) * 1` are the
code under test. -/
def get_signal (vpinLast : ℚ) (strat : List Char) : ℕ :=
  if strat = macdName then (if 2 < vpinLast then 1 else 0) else 0

/-- Order sides of the Alpaca SDK used by the loop. -/
inductive Side where
  | buy
  | sell
deriving DecidableEq

/-- Time-in-force values of the Alpaca SDK. -/
inductive Tif where
  | gtc
  | day
deriving DecidableEq

/-- A bracket order as built by `submit_order` (source lines 265-272): market
entry with optional attached take-profit and stop-loss legs. -/
structure Order where
  symbol : List Char
  qty : ℚ
  side : Side
  time_in_force : Tif
  take_profit : Option ℚ
  stop_loss : Option ℚ
deriving DecidableEq

/-- The per-symbol environment a cycle iteration observes: the asset's symbol
and minimum order size, the last stored close price, the raw trailing-60-bar
realized volatility (`getDailyVol(...).iloc[-1]`, computed in the absent
`utils` module and taken as an input), whether the broker reports an open
position, and the standardized `vpin_500` statistic fed to `get_signal`. -/
structure AssetEnv where
  symbol : List Char
  min_order_size : ℚ
  lastClose : ℚ
  rawVol : ℚ
  hasOpenPosition : Bool
  vpinLast : ℚ
deriving DecidableEq

/-- Outcome of one iteration of the symbol loop: the submitted order (if any),
the symbol string passed to the broker's open-position lookup, and whether
`get_signal` was evaluated for this symbol. -/
structure StepResult where
  order : Option Order
  posQuerySymbol : List Char
  signalEvaluated : Bool
deriving DecidableEq

/-- One iteration of the symbol loop of `run` (source lines 118-141): compute
`qty`, look up the open position (the broker receives the slash-stripped
symbol, source line 304), skip if a position exists, evaluate the signal, skip
if below the minimum order size, clamp volatility, and submit a BUY bracket
order when the signal is 1.  `submit_order` passes the symbol unchanged and
uses GTC time-in-force with both bracket legs (source lines 265-272). -/
def processAsset (tc tp sl : ℚ) (cashForAsset : ℚ) (a : AssetEnv) : StepResult :=
  let qty := cashForAsset / a.lastClose
  let posQ := stripSlash a.symbol
  if a.hasOpenPosition then
    { order := none, posQuerySymbol := posQ, signalEvaluated := false }
  else
    let signal := get_signal a.vpinLast macdName
    if a.min_order_size > qty then
      { order := none, posQuerySymbol := posQ, signalEvaluated := true }
    else
      let vol := clampVol tc a.rawVol
      let close := a.lastClose
      if signal = 1 then
        { order := some
            { symbol := a.symbol
              qty := qty
              side := Side.buy
              time_in_force := Tif.gtc
              take_profit := some (take_profit_price tp vol close)
              stop_loss := some (stop_loss_price sl vol close) }
          posQuerySymbol := posQ
          signalEvaluated := true }
      else
        { order := none, posQuerySymbol := posQ, signalEvaluated := true }

/-- The symbol loop of one fired cycle (source lines 107-141): compute the
per-symbol cash allocation once, then process every tradable asset. -/
def runCycle (tc tp sl : ℚ) (cash : ℚ) (assets : List AssetEnv) : List StepResult :=
  assets.map (processAsset tc tp sl ((cash_asset cash assets.length : ℤ) : ℚ))

/-- The live windows the feed returns for one symbol during `update_history`:
`none` models a feed error raised by the fetch call. -/
structure LiveFetch (α : Type) where
  factors : Option (Series α)
  price : Option (Series α)
deriving DecidableEq

/-- Input of `update_history` for one tradable asset: its (slash-delimited)
symbol, the stored factor and price series, and the feed's responses. -/
structure SymbolUpdate (α : Type) where
  symbol : List Char
  history : Series α
  price_history : Series α
  fetch : LiveFetch α
deriving DecidableEq

/-- Embedding of `update_history` (source lines 440-466).  Symbols are
processed in order; for each, the factor window is fetched (with the
slash-stripped symbol) and merged into the stored factor series, then the
price window is fetched and merged into the stored price series.  A feed
error propagates immediately: the remaining symbols keep their prior series
and the flag comes back `false`.  Returns the resulting per-symbol series
pairs, the symbol strings passed to the feed, and the success flag. -/
def update_history {α : Type} :
    List (SymbolUpdate α) → List (Series α × Series α) × List (List Char) × Bool
  | [] => ([], [], true)
  | u :: rest =>
    match u.fetch.factors with
    | none =>
        ((u.history, u.price_history) :: rest.map (fun v => (v.history, v.price_history)),
         [stripSlash u.symbol], false)
    | some wf =>
      match u.fetch.price with
      | none =>
          ((merge u.history wf, u.price_history) ::
             rest.map (fun v => (v.history, v.price_history)),
           [stripSlash u.symbol, stripSlash u.symbol], false)
      | some wp =>
          ((merge u.history wf, merge u.price_history wp) :: (update_history rest).1,
           stripSlash u.symbol :: stripSlash u.symbol :: (update_history rest).2.1,
           (update_history rest).2.2)

/-- Orders submitted by one fired cycle of `run`, including the update gate
(source lines 112-116): when `update_history` raises, the cycle is abandoned
via `continue` and no orders are attempted. -/
def fullCycleOrders {α : Type} (tc tp sl cash : ℚ) (us : List (SymbolUpdate α))
    (assets : List AssetEnv) : List Order :=
  if (update_history us).2.2 then
    (runCycle tc tp sl cash assets).filterMap (fun r => r.order)
  else []

/-- Symbol string passed to the broker by `close_position` (source line 345):
`symbol.replace("/", "")`. -/
def close_position_broker_symbol (s : List Char) : List Char := stripSlash s

/-- A series pair produced by `update_history` relates to its input as
follows: each of the two series is either untouched or the complete merge of
its prior value with a successfully fetched window, and a series whose own
fetch failed is untouched. -/
def UntouchedOrMerged {α : Type} (out : Series α × Series α) (u : SymbolUpdate α) : Prop :=
  (out.1 = u.history ∨ ∃ w, u.fetch.factors = some w ∧ out.1 = merge u.history w) ∧
  (out.2 = u.price_history ∨ ∃ w, u.fetch.price = some w ∧ out.2 = merge u.price_history w) ∧
  (u.fetch.factors = none → out.1 = u.history ∧ out.2 = u.price_history) ∧
  (u.fetch.price = none → out.2 = u.price_history)

/-- A symbol fully processed before the failure point of `update_history`:
both of its fetches succeeded and both stored series hold the complete merge
of their prior value with the fetched window. -/
def FullyMerged {α : Type} (out : Series α × Series α) (u : SymbolUpdate α) : Prop :=
  ∃ wf wp, u.fetch.factors = some wf ∧ u.fetch.price = some wp ∧
    out.1 = merge u.history wf ∧ out.2 = merge u.price_history wp

/-- The state of the symbol at which `update_history` failed: if its factor
fetch failed, both of its series are untouched; if its factor fetch succeeded
and its price fetch failed, the factor series holds the complete merge and
the price series is untouched (source lines 456-466: the factor merge is
written back before the price fetch runs). -/
def FailedAt {α : Type} (out : Series α × Series α) (u : SymbolUpdate α) : Prop :=
  (u.fetch.factors = none ∧ out.1 = u.history ∧ out.2 = u.price_history) ∨
  (∃ wf, u.fetch.factors = some wf ∧ u.fetch.price = none ∧
    out.1 = merge u.history wf ∧ out.2 = u.price_history)

/-- Wall-clock second of an absolute time given in seconds. -/
def secondOf (t : ℕ) : ℕ := t % 60

/-- Wall-clock minute-of-hour of an absolute time given in seconds. -/
def minuteOf (t : ℕ) : ℕ := t / 60 % 60

/-- The scheduler trigger (source line 87):
`datetime.now().second == interval and datetime.now().minute != last_min`. -/
def MINUTE_CONDITION (interval lastMin : ℕ) (t : ℕ) : Bool :=
  (secondOf t == interval) && (minuteOf t != lastMin)

/-- One iteration of the `while True` polling loop of `run`: the absolute time
at which the trigger is checked, the absolute time at which the cycle body
finishes (equal to `checkT` when the trigger fails), and whether
`update_history` succeeded during the cycle. -/
structure SchedIter where
  checkT : ℕ
  endT : ℕ
  updateOk : Bool
deriving DecidableEq

/-- Wall-clock monotonicity of a polling trace starting no earlier than `t`:
each check happens no earlier than the previous iteration finished. -/
def IterChain : ℕ → List SchedIter → Prop
  | _, [] => True
  | t, it :: rest => t ≤ it.checkT ∧ it.checkT ≤ it.endT ∧ IterChain it.endT rest

def iterChainDec : (t : ℕ) → (l : List SchedIter) → Decidable (IterChain t l)
  | _, [] => isTrue trivial
  | t, it :: rest =>
    have : Decidable (IterChain it.endT rest) := iterChainDec it.endT rest
    inferInstanceAs (Decidable (t ≤ it.checkT ∧ it.checkT ≤ it.endT ∧ IterChain it.endT rest))

instance (t : ℕ) (l : List SchedIter) : Decidable (IterChain t l) := iterChainDec t l

/-- Check times of the polling-loop iterations whose trigger fired, i.e. at
which a cycle was entered (source line 105).  `last_min` is updated only at
the end of a completed cycle (source line 143); a cycle abandoned because
`update_history` failed reaches `continue` (source line 116) and leaves
`last_min` unchanged. -/
def firedTimes (lastMin : ℕ) : List SchedIter → List ℕ
  | [] => []
  | it :: rest =>
    if MINUTE_CONDITION 0 lastMin it.checkT then
      if it.updateOk then it.checkT :: firedTimes (minuteOf it.endT) rest
      else it.checkT :: firedTimes lastMin rest
    else firedTimes lastMin rest

/-- Check times of the polling-loop iterations that entered a cycle and
completed it (the update succeeded, so `last_min` was recorded at the end). -/
def completedTimes (lastMin : ℕ) : List SchedIter → List ℕ
  | [] => []
  | it :: rest =>
    if MINUTE_CONDITION 0 lastMin it.checkT then
      if it.updateOk then it.checkT :: completedTimes (minuteOf it.endT) rest
      else completedTimes lastMin rest
    else completedTimes lastMin rest

/-- Example asset for concrete witnesses: no open position, minimum order
size 0, last close 100, raw volatility 0.05, vpin statistic 3 (a buy). -/
def exAsset : AssetEnv := ⟨['B'], 0, 100, 5/100, false, 3⟩

/-- Example polling trace: a completed cycle at time 60, a non-triggering
check at 65, and a completed cycle at 120. -/
def exTrace : List SchedIter := [⟨60, 62, true⟩, ⟨65, 65, false⟩, ⟨120, 125, true⟩]

/-- Example `update_history` input whose two fetches both succeed. -/
def exOkUpdate : List (SymbolUpdate ℕ) :=
  [⟨['B'], [(1, 3)], [(0, 2)], ⟨some [(0, 5), (1, 6)], some [(1, 7)]⟩⟩]

/-- Example `update_history` input whose price fetch fails after the factor
fetch succeeded. -/
def exFailUpdate : List (SymbolUpdate ℕ) := [⟨['A'], [], [], ⟨some [(0, 0)], none⟩⟩]

/-- The slash-delimited broker symbol form of the documentation. -/
def exBtcSymbol : List Char := ['B', 'T', 'C', '/', 'U', 'S', 'D']

theorem mem_map_fst_dedupKeysAux {α : Type} (s : Series α) :
    ∀ (seen : List Nat) (t : Nat),
      t ∈ (dedupKeysAux seen s).map Prod.fst ↔ t ∈ s.map Prod.fst ∧ t ∉ seen := by
  induction s with
  | nil => intro seen t; simp [dedupKeysAux]
  | cons p rest ih =>
    intro seen t
    by_cases hp : p.1 ∈ seen
    · rw [dedupKeysAux, if_pos hp]
      rw [ih seen t]
      simp only [List.map_cons, List.mem_cons]
      constructor
      · rintro ⟨hmem, hns⟩; exact ⟨Or.inr hmem, hns⟩
      · rintro ⟨h | hmem, hns⟩
        · exact absurd (h ▸ hp) hns
        · exact ⟨hmem, hns⟩
    · rw [dedupKeysAux, if_neg hp]
      simp only [List.map_cons, List.mem_cons]
      rw [ih (p.1 :: seen) t]
      simp only [List.mem_cons]
      constructor
      · rintro (h | ⟨hmem, hns⟩)
        · exact ⟨Or.inl h, h ▸ hp⟩
        · exact ⟨Or.inr hmem, fun hc => hns (Or.inr hc)⟩
      · rintro ⟨h | hmem, hns⟩
        · exact Or.inl h
        · by_cases htp : t = p.1
          · exact Or.inl htp
          · exact Or.inr ⟨hmem, fun hc => hc.elim htp hns⟩

theorem nodup_map_fst_dedupKeysAux {α : Type} (s : Series α) :
    ∀ seen : List Nat, ((dedupKeysAux seen s).map Prod.fst).Nodup := by
  induction s with
  | nil => intro seen; simp [dedupKeysAux]
  | cons p rest ih =>
    intro seen
    by_cases hp : p.1 ∈ seen
    · rw [dedupKeysAux, if_pos hp]; exact ih seen
    · rw [dedupKeysAux, if_neg hp]
      simp only [List.map_cons, List.nodup_cons]
      refine ⟨fun hmem => ?_, ih _⟩
      rw [mem_map_fst_dedupKeysAux] at hmem
      exact hmem.2 (List.mem_cons_self _ _)

theorem dedupKeysAux_eq_nil {α : Type} (s : Series α) :
    ∀ seen, (∀ p ∈ s, p.1 ∈ seen) → dedupKeysAux seen s = [] := by
  induction s with
  | nil => intro _ _; rfl
  | cons p rest ih =>
    intro seen h
    have hp : p.1 ∈ seen := h p (List.mem_cons_self _ _)
    rw [dedupKeysAux, if_pos hp]
    exact ih seen fun q hq => h q (List.mem_cons_of_mem _ hq)

theorem dedupKeysAux_append {α : Type} (M : Series α) :
    ∀ (W : Series α) (seen : List Nat),
      (M.map Prod.fst).Nodup → (∀ p ∈ M, p.1 ∉ seen) →
      (∀ p ∈ W, p.1 ∈ M.map Prod.fst ∨ p.1 ∈ seen) →
      dedupKeysAux seen (M ++ W) = M := by
  induction M with
  | nil =>
    intro W seen _ _ hW
    rw [List.nil_append]
    refine dedupKeysAux_eq_nil W seen fun p hp => ?_
    rcases hW p hp with h | h
    · simp at h
    · exact h
  | cons q M ihM =>
    intro W seen hnodup hdisj hW
    have hq : q.1 ∉ seen := hdisj q (List.mem_cons_self _ _)
    rw [List.cons_append, dedupKeysAux, if_neg hq]
    simp only [List.map_cons, List.nodup_cons] at hnodup
    congr 1
    refine ihM W (q.1 :: seen) hnodup.2 ?_ ?_
    · intro p hp
      simp only [List.mem_cons]
      rintro (h | h)
      · exact hnodup.1 (h ▸ List.mem_map_of_mem Prod.fst hp)
      · exact hdisj p (List.mem_cons_of_mem _ hp) h
    · intro p hp
      rcases hW p hp with h | h
      · simp only [List.map_cons, List.mem_cons] at h
        rcases h with h | h
        · exact Or.inr (List.mem_cons.mpr (Or.inl h))
        · exact Or.inl h
      · exact Or.inr (List.mem_cons_of_mem _ h)

theorem merge_perm_dedup {α : Type} (S W : Series α) :
    List.Perm (merge S W) (dedupKeys (S ++ W)) :=
  List.perm_insertionSort _ _

theorem merge_sorted_le {α : Type} (S W : Series α) :
    List.Sorted keyLE (merge S W) :=
  List.sorted_insertionSort _ _

theorem merge_nodup_keys {α : Type} (S W : Series α) :
    ((merge S W).map Prod.fst).Nodup := by
  have hp : List.Perm ((merge S W).map Prod.fst) ((dedupKeys (S ++ W)).map Prod.fst) :=
    (merge_perm_dedup S W).map _
  rw [hp.nodup_iff]
  exact nodup_map_fst_dedupKeysAux _ _

theorem mem_keys_merge {α : Type} (S W : Series α) (t : Nat) :
    t ∈ (merge S W).map Prod.fst ↔ t ∈ (S ++ W).map Prod.fst := by
  have hp : List.Perm ((merge S W).map Prod.fst) ((dedupKeys (S ++ W)).map Prod.fst) :=
    (merge_perm_dedup S W).map _
  rw [hp.mem_iff, dedupKeys, mem_map_fst_dedupKeysAux]
  simp

theorem pairwise_lt_of_sorted_nodup {α : Type} :
    ∀ L : Series α, List.Sorted keyLE L → ((L.map Prod.fst).Nodup) →
      L.Pairwise (fun p q => p.1 < q.1) := by
  intro L
  induction L with
  | nil => intro _ _; exact List.Pairwise.nil
  | cons p L ih =>
    intro hsort hnodup
    rw [List.sorted_cons] at hsort
    simp only [List.map_cons, List.nodup_cons] at hnodup
    refine List.Pairwise.cons (fun q hq => ?_) (ih hsort.2 hnodup.2)
    refine lt_of_le_of_ne (hsort.1 q hq) fun he => ?_
    exact hnodup.1 (he ▸ List.mem_map_of_mem Prod.fst hq)

theorem merge_strict {α : Type} (S W : Series α) : StrictByKey (merge S W) :=
  pairwise_lt_of_sorted_nodup _ (merge_sorted_le S W) (merge_nodup_keys S W)

theorem merge_idem {α : Type} (S W : Series α) :
    merge (merge S W) W = merge S W := by
  have hded : dedupKeys (merge S W ++ W) = merge S W := by
    refine dedupKeysAux_append (merge S W) W [] (merge_nodup_keys S W)
      (fun p _ => List.not_mem_nil _) ?_
    intro p hp
    left
    rw [mem_keys_merge]
    simp only [List.map_append, List.mem_append]
    exact Or.inr (List.mem_map_of_mem Prod.fst hp)
  rw [merge, hded]
  exact (merge_sorted_le S W).insertionSort_eq

theorem processAsset_some {tc tp sl ca : ℚ} {a : AssetEnv} {o : Order}
    (h : (processAsset tc tp sl ca a).order = some o) :
    o = { symbol := a.symbol
          qty := ca / a.lastClose
          side := Side.buy
          time_in_force := Tif.gtc
          take_profit := some (take_profit_price tp (clampVol tc a.rawVol) a.lastClose)
          stop_loss := some (stop_loss_price sl (clampVol tc a.rawVol) a.lastClose) } := by
  simp only [processAsset] at h
  by_cases h1 : a.hasOpenPosition = true
  · rw [if_pos h1] at h
    exact Option.noConfusion h
  · rw [if_neg h1] at h
    by_cases h2 : a.min_order_size > ca / a.lastClose
    · rw [if_pos h2] at h
      exact Option.noConfusion h
    · rw [if_neg h2] at h
      by_cases h3 : get_signal a.vpinLast macdName = 1
      · rw [if_pos h3] at h
        exact (Option.some.inj h).symm
      · rw [if_neg h3] at h
        exact Option.noConfusion h

theorem processAsset_char (tc tp sl ca : ℚ) (a : AssetEnv) :
    ((processAsset tc tp sl ca a).order.isSome = true ↔
      (a.hasOpenPosition = false ∧ get_signal a.vpinLast macdName = 1 ∧
       a.min_order_size ≤ ca / a.lastClose)) ∧
    (a.hasOpenPosition = true → (processAsset tc tp sl ca a).signalEvaluated = false) ∧
    (ca / a.lastClose < a.min_order_size → (processAsset tc tp sl ca a).order = none) := by
  by_cases h1 : a.hasOpenPosition = true
  · simp [processAsset, h1]
  · have h1f : a.hasOpenPosition = false := by simpa using h1
    by_cases h2 : a.min_order_size > ca / a.lastClose
    · have hq : ¬ (a.min_order_size ≤ ca / a.lastClose) := not_le.mpr h2
      simp [processAsset, h1f, h2, hq]
    · have hq : a.min_order_size ≤ ca / a.lastClose := not_lt.mp h2
      have hq2 : ¬ (ca / a.lastClose < a.min_order_size) := not_lt.mpr hq
      by_cases h3 : get_signal a.vpinLast macdName = 1
      · simp [processAsset, h1f, h2, h3, hq, hq2]
      · simp [processAsset, h1f, h2, h3, hq2]

theorem processAsset_posQuery (tc tp sl ca : ℚ) (a : AssetEnv) :
    (processAsset tc tp sl ca a).posQuerySymbol = stripSlash a.symbol := by
  simp only [processAsset]
  split
  · rfl
  · split
    · rfl
    · split
      · rfl
      · rfl

theorem forall₂_map_self {β γ : Type} (f : β → γ) (P : γ → β → Prop)
    (hP : ∀ b, P (f b) b) : ∀ l : List β, List.Forall₂ P (l.map f) l
  | [] => List.Forall₂.nil
  | b :: l => List.Forall₂.cons (hP b) (forall₂_map_self f P hP l)

theorem untouched_refl {α : Type} (u : SymbolUpdate α) :
    UntouchedOrMerged (u.history, u.price_history) u :=
  ⟨Or.inl rfl, Or.inl rfl, fun _ => ⟨rfl, rfl⟩, fun _ => rfl⟩

theorem update_history_untouchedOrMerged {α : Type} :
    ∀ us : List (SymbolUpdate α),
      List.Forall₂ UntouchedOrMerged (update_history us).1 us := by
  intro us
  induction us with
  | nil => exact List.Forall₂.nil
  | cons u rest ih =>
    cases hf : u.fetch.factors with
    | none =>
      simp only [update_history, hf]
      exact List.Forall₂.cons (untouched_refl u)
        (forall₂_map_self _ _ untouched_refl rest)
    | some wf =>
      cases hpc : u.fetch.price with
      | none =>
        simp only [update_history, hf, hpc]
        refine List.Forall₂.cons ?_ (forall₂_map_self _ _ untouched_refl rest)
        refine ⟨Or.inr ⟨wf, hf, rfl⟩, Or.inl rfl, ?_, fun _ => rfl⟩
        intro hn
        rw [hf] at hn
        exact Option.noConfusion hn
      | some wp =>
        simp only [update_history, hf, hpc]
        refine List.Forall₂.cons ?_ ih
        refine ⟨Or.inr ⟨wf, hf, rfl⟩, Or.inr ⟨wp, hpc, rfl⟩, ?_, ?_⟩
        · intro hn
          rw [hf] at hn
          exact Option.noConfusion hn
        · intro hn
          rw [hpc] at hn
          exact Option.noConfusion hn

theorem update_history_fail_decomp {α : Type} :
    ∀ us : List (SymbolUpdate α), (update_history us).2.2 = false →
      ∃ pre u post outPre outU,
        us = pre ++ u :: post ∧
        (update_history us).1 =
          outPre ++ outU :: post.map (fun v => (v.history, v.price_history)) ∧
        List.Forall₂ FullyMerged outPre pre ∧
        FailedAt outU u := by
  intro us
  induction us with
  | nil => intro h; simp [update_history] at h
  | cons w rest ih =>
    intro h
    cases hf : w.fetch.factors with
    | none =>
      refine ⟨[], w, rest, [], (w.history, w.price_history), rfl, ?_, List.Forall₂.nil,
        Or.inl ⟨hf, rfl, rfl⟩⟩
      simp [update_history, hf]
    | some wf =>
      cases hp : w.fetch.price with
      | none =>
        refine ⟨[], w, rest, [], (merge w.history wf, w.price_history), rfl, ?_,
          List.Forall₂.nil, Or.inr ⟨wf, hf, hp, rfl, rfl⟩⟩
        simp [update_history, hf, hp]
      | some wp =>
        have h2 : (update_history rest).2.2 = false := by
          rw [update_history] at h
          simpa only [hf, hp] using h
        obtain ⟨pre, u, post, outPre, outU, hsplit, hres, hpre, hu⟩ := ih h2
        refine ⟨w :: pre, u, post,
          (merge w.history wf, merge w.price_history wp) :: outPre, outU,
          by rw [hsplit, List.cons_append], ?_,
          List.Forall₂.cons ⟨wf, wp, hf, hp, rfl, rfl⟩ hpre, hu⟩
        rw [update_history]
        simp only [hf, hp, List.cons_append]
        rw [hres]

theorem update_history_queries {α : Type} :
    ∀ us : List (SymbolUpdate α), ∀ q ∈ (update_history us).2.1,
      ∃ u ∈ us, q = stripSlash u.symbol := by
  intro us
  induction us with
  | nil => intro q hq; simp [update_history] at hq
  | cons u rest ih =>
    intro q hq
    cases hf : u.fetch.factors with
    | none =>
      simp only [update_history, hf] at hq
      rw [List.mem_singleton] at hq
      exact ⟨u, List.mem_cons_self _ _, hq⟩
    | some wf =>
      cases hpc : u.fetch.price with
      | none =>
        simp only [update_history, hf, hpc] at hq
        rcases List.mem_cons.mp hq with h | h
        · exact ⟨u, List.mem_cons_self _ _, h⟩
        · rw [List.mem_singleton] at h
          exact ⟨u, List.mem_cons_self _ _, h⟩
      | some wp =>
        simp only [update_history, hf, hpc] at hq
        rcases List.mem_cons.mp hq with h | h
        · exact ⟨u, List.mem_cons_self _ _, h⟩
        rcases List.mem_cons.mp h with h2 | h2
        · exact ⟨u, List.mem_cons_self _ _, h2⟩
        · obtain ⟨v, hv, hqv⟩ := ih q h2
          exact ⟨v, List.mem_cons_of_mem _ hv, hqv⟩

theorem minute_condition_true {lastMin t : ℕ}
    (h : MINUTE_CONDITION 0 lastMin t = true) :
    secondOf t = 0 ∧ minuteOf t ≠ lastMin := by
  simp only [MINUTE_CONDITION, Bool.and_eq_true, beq_iff_eq, bne_iff_ne, ne_eq] at h
  exact ⟨h.1, h.2⟩

theorem firedTimes_second :
    ∀ (its : List SchedIter) (lm : ℕ), ∀ x ∈ firedTimes lm its, secondOf x = 0 := by
  intro its
  induction its with
  | nil => intro lm x hx; simp [firedTimes] at hx
  | cons it rest ih =>
    intro lm x hx
    by_cases hc : MINUTE_CONDITION 0 lm it.checkT = true
    · rw [firedTimes, if_pos hc] at hx
      by_cases hok : it.updateOk = true
      · rw [if_pos hok] at hx
        rcases List.mem_cons.mp hx with h | h
        · exact h ▸ (minute_condition_true hc).1
        · exact ih _ x h
      · rw [if_neg hok] at hx
        rcases List.mem_cons.mp hx with h | h
        · exact h ▸ (minute_condition_true hc).1
        · exact ih _ x h
    · rw [firedTimes, if_neg hc] at hx
      exact ih _ x hx

theorem completedTimes_sorted :
    ∀ (its : List SchedIter) (t M lm : ℕ), IterChain t its →
      (∀ c, t ≤ c → c % 60 = 0 → c / 60 ≤ M → minuteOf c = lm) →
      List.Sorted (fun a b => a < b)
        (M :: (completedTimes lm its).map (fun x => x / 60)) := by
  intro its
  induction its with
  | nil =>
    intro t M lm _ _
    simp [completedTimes]
  | cons it rest ih =>
    intro t M lm hchain hblock
    obtain ⟨h1, h2, h3⟩ := hchain
    by_cases hc : MINUTE_CONDITION 0 lm it.checkT = true
    · obtain ⟨hsec, hne⟩ := minute_condition_true hc
      have hsec2 : it.checkT % 60 = 0 := hsec
      have hM : M < it.checkT / 60 := by
        by_contra hle
        push_neg at hle
        exact hne (hblock it.checkT h1 hsec2 hle)
      by_cases hok : it.updateOk = true
      · rw [completedTimes, if_pos hc, if_pos hok]
        have hblock2 : ∀ c, it.endT ≤ c → c % 60 = 0 → c / 60 ≤ it.checkT / 60 →
            minuteOf c = minuteOf it.endT := by
          intro c hce hcs hcd
          have hcc : it.checkT ≤ c := le_trans h2 hce
          have hdiv : it.checkT / 60 ≤ c / 60 := Nat.div_le_div_right hcc
          have hdeq : c / 60 = it.checkT / 60 := le_antisymm hcd hdiv
          have hceq : c = it.checkT := by omega
          have hend : it.endT = it.checkT := le_antisymm (hceq ▸ hce) h2
          rw [hceq, ← hend]
        have hsub := ih it.endT (it.checkT / 60) (minuteOf it.endT) h3 hblock2
        rw [List.map_cons, List.sorted_cons]
        refine ⟨?_, hsub⟩
        intro b hb
        rcases List.mem_cons.mp hb with h | h
        · exact h ▸ hM
        · exact lt_trans hM (List.rel_of_sorted_cons hsub b h)
      · rw [completedTimes, if_pos hc, if_neg hok]
        refine ih it.endT M lm h3 ?_
        intro c hce hcs hcd
        exact hblock c (le_trans (le_trans h1 h2) hce) hcs hcd
    · rw [completedTimes, if_neg hc]
      refine ih it.endT M lm h3 ?_
      intro c hce hcs hcd
      exact hblock c (le_trans (le_trans h1 h2) hce) hcs hcd

/-- Claim C1: after any (successful) call to `update_history`, for every
tradable symbol both the stored factor series and the stored price series
have strictly increasing timestamps with no duplicate timestamps. -/
theorem c1_update_strict_sorted {α : Type} (us : List (SymbolUpdate α))
    (hok : (update_history us).2.2 = true) :
    ∀ pr ∈ (update_history us).1, StrictByKey pr.1 ∧ StrictByKey pr.2 := by
  induction us with
  | nil => intro pr hpr; simp [update_history] at hpr
  | cons u rest ih =>
    cases hf : u.fetch.factors with
    | none =>
      rw [update_history] at hok
      simp only [hf] at hok
      exact Bool.noConfusion hok
    | some wf =>
      cases hpc : u.fetch.price with
      | none =>
        rw [update_history] at hok
        simp only [hf, hpc] at hok
        exact Bool.noConfusion hok
      | some wp =>
        rw [update_history] at hok
        simp only [hf, hpc] at hok
        intro pr hpr
        rw [update_history] at hpr
        simp only [hf, hpc] at hpr
        rcases List.mem_cons.mp hpr with h | h
        · rw [h]
          exact ⟨merge_strict _ _, merge_strict _ _⟩
        · exact ih hok pr h

/-- Witness for C1: on a concrete two-series store with overlapping live
windows, the update succeeds and both resulting series are strictly sorted. -/
theorem c1_witness :
    (update_history exOkUpdate).2.2 = true ∧
    (StrictByKey (merge ([(1, 3)] : Series ℕ) [(0, 5), (1, 6)]) ∧
     StrictByKey (merge ([(0, 2)] : Series ℕ) [(1, 7)])) :=
  ⟨by decide,
   c1_update_strict_sorted exOkUpdate (by decide)
     (merge ([(1, 3)] : Series ℕ) [(0, 5), (1, 6)],
      merge ([(0, 2)] : Series ℕ) [(1, 7)]) (by decide)⟩

/-- Claim C2: the merge step of `update_history` is idempotent — merging the
same live window twice yields the same series as merging it once, because
deduplication keeps the first occurrence of each timestamp. -/
theorem c2_merge_idempotent {α : Type} (S W : Series α) :
    merge (merge S W) W = merge S W :=
  merge_idem S W

/-- Claim C3: every order submitted in a cycle carries bracket prices
`take_profit = close + 2 * clamp(v) * close` and
`stop_loss = close - 2 * clamp(v) * close` for the raw trailing volatility v,
with `clamp(v) = max(min(v, 0.1), 0.0015 * 15)`; concretely raw 0.0005 clamps
to 0.0225, raw 0.5 clamps to 0.1, raw 0.05 passes through, and close 100 with
clamped volatility 0.02 gives take-profit 104 and stop-loss 96. -/
theorem c3_bracket_prices (ca : ℚ) (a : AssetEnv) (o : Order)
    (h : (processAsset ALPACA_TC 2 2 ca a).order = some o) :
    o.take_profit = some (a.lastClose + 2 * clampVol ALPACA_TC a.rawVol * a.lastClose) ∧
    o.stop_loss = some (a.lastClose - 2 * clampVol ALPACA_TC a.rawVol * a.lastClose) ∧
    clampVol ALPACA_TC (5/10000) = 225/10000 ∧
    clampVol ALPACA_TC (5/10) = 1/10 ∧
    clampVol ALPACA_TC (5/100) = 5/100 ∧
    take_profit_price 2 (2/100) 100 = 104 ∧
    stop_loss_price 2 (2/100) 100 = 96 := by
  have ho := processAsset_some h
  subst ho
  refine ⟨rfl, rfl, ?_, ?_, ?_, ?_, ?_⟩
  · norm_num [clampVol, ALPACA_TC, min_def, max_def]
  · norm_num [clampVol, ALPACA_TC, min_def, max_def]
  · norm_num [clampVol, ALPACA_TC, min_def, max_def]
  · norm_num [take_profit_price]
  · norm_num [stop_loss_price]

/-- Witness for C3: the example asset produces an order, and its brackets are
110 and 90 around close 100 with clamped volatility 0.05. -/
theorem c3_witness :
    (processAsset ALPACA_TC 2 2 1000 exAsset).order =
      some ⟨['B'], 10, Side.buy, Tif.gtc, some 110, some 90⟩ ∧
    ((⟨['B'], 10, Side.buy, Tif.gtc, some 110, some 90⟩ : Order).take_profit =
      some (exAsset.lastClose + 2 * clampVol ALPACA_TC exAsset.rawVol * exAsset.lastClose) ∧
     (⟨['B'], 10, Side.buy, Tif.gtc, some 110, some 90⟩ : Order).stop_loss =
      some (exAsset.lastClose - 2 * clampVol ALPACA_TC exAsset.rawVol * exAsset.lastClose) ∧
     clampVol ALPACA_TC (5/10000) = 225/10000 ∧
     clampVol ALPACA_TC (5/10) = 1/10 ∧
     clampVol ALPACA_TC (5/100) = 5/100 ∧
     take_profit_price 2 (2/100) 100 = 104 ∧
     stop_loss_price 2 (2/100) 100 = 96) :=
  ⟨by
    norm_num [processAsset, exAsset, get_signal, macdName, clampVol, ALPACA_TC,
      take_profit_price, stop_loss_price, min_def, max_def],
   c3_bracket_prices 1000 exAsset ⟨['B'], 10, Side.buy, Tif.gtc, some 110, some 90⟩ (by
    norm_num [processAsset, exAsset, get_signal, macdName, clampVol, ALPACA_TC,
      take_profit_price, stop_loss_price, min_def, max_def])⟩

/-- Counterexample for C4 as stated: the coded per-symbol budget is the
integer truncation `int(0.9 * cash / N)`, so with cash 100 and 7 symbols it
is 12, not (0.9 * 100) / 7 = 90/7. -/
theorem c4_counterexample :
    ((cash_asset 100 7 : ℤ) : ℚ) ≠ 9/10 * 100 / 7 := by
  norm_num [cash_asset, pyInt]

/-- Claim C4 (amended): the per-symbol budget is `(0.9 * cash) / N` truncated
to an integer (the floor, as cash is nonnegative), each submitted order's
quantity is that budget divided by the symbol's last close, and the concrete
example cash 10,000 with 3 symbols and close 50 gives quantity 60. -/
theorem c4_equal_weight_sizing (cash : ℚ) (hc : 0 ≤ cash) (tc tp sl : ℚ)
    (assets : List AssetEnv) :
    ((cash_asset cash assets.length : ℤ) : ℚ) =
      ((⌊9/10 * cash / (assets.length : ℚ)⌋ : ℤ) : ℚ) ∧
    List.Forall₂ (fun r a => ∀ o, r.order = some o →
        o.qty = ((cash_asset cash assets.length : ℤ) : ℚ) / a.lastClose)
      (runCycle tc tp sl cash assets) assets ∧
    ((cash_asset 10000 3 : ℤ) : ℚ) / 50 = 60 := by
  refine ⟨?_, ?_, by norm_num [cash_asset, pyInt]⟩
  · have hnn : 0 ≤ cash * (9/10) / ((assets.length : ℚ)) :=
      div_nonneg (mul_nonneg hc (by norm_num)) (Nat.cast_nonneg _)
    simp only [cash_asset, pyInt]
    rw [if_neg (not_lt.mpr hnn), mul_comm cash (9/10 : ℚ)]
  · simp only [runCycle]
    refine forall₂_map_self _ _ (fun a => ?_) assets
    intro o ho
    rw [processAsset_some ho]

/-- Witness for C4 at cash 10,000 and a one-asset universe. -/
theorem c4_witness :
    ((cash_asset 10000 ([exAsset] : List AssetEnv).length : ℤ) : ℚ) =
      ((⌊9/10 * (10000 : ℚ) / (([exAsset] : List AssetEnv).length : ℚ)⌋ : ℤ) : ℚ) ∧
    List.Forall₂ (fun r a => ∀ o, r.order = some o →
        o.qty = ((cash_asset 10000 ([exAsset] : List AssetEnv).length : ℤ) : ℚ) / a.lastClose)
      (runCycle ALPACA_TC 2 2 10000 [exAsset]) [exAsset] ∧
    ((cash_asset 10000 3 : ℤ) : ℚ) / 50 = 60 :=
  c4_equal_weight_sizing 10000 (by norm_num) ALPACA_TC 2 2 [exAsset]

/-- Claim C5: within a cycle, an order is submitted for a symbol iff it has
no open position, its signal is 1, and its quantity is at least the minimum
order size; a symbol with an open position is never signal-evaluated that
cycle; a below-minimum quantity yields a silent skip (no order, no error). -/
theorem c5_submission_iff (tc tp sl cash : ℚ) (assets : List AssetEnv) :
    List.Forall₂ (fun r a =>
      (r.order.isSome = true ↔
        (a.hasOpenPosition = false ∧ get_signal a.vpinLast macdName = 1 ∧
         a.min_order_size ≤ ((cash_asset cash assets.length : ℤ) : ℚ) / a.lastClose)) ∧
      (a.hasOpenPosition = true → r.signalEvaluated = false) ∧
      (((cash_asset cash assets.length : ℤ) : ℚ) / a.lastClose < a.min_order_size →
        r.order = none))
      (runCycle tc tp sl cash assets) assets := by
  simp only [runCycle]
  exact forall₂_map_self _ _
    (fun a => processAsset_char tc tp sl ((cash_asset cash assets.length : ℤ) : ℚ) a) assets

/-- Counterexample for C6 as stated: a cycle abandoned by a failed update
does not record the minute, so the trigger can fire a second cycle within the
very same wall-clock minute (here twice at absolute second 60). -/
theorem c6_counterexample :
    IterChain 0 [⟨60, 60, false⟩, ⟨60, 60, false⟩] ∧
    firedTimes (minuteOf 0) [⟨60, 60, false⟩, ⟨60, 60, false⟩] = [60, 60] := by
  decide

/-- Claim C6 (amended): with trigger second 0, a cycle is entered only at
wall-clock second 0, and along any monotone polling trace the completed
cycles occur in strictly increasing absolute minutes — hence at most one
completed cycle per wall-clock minute, and none in the starting minute.  A
cycle aborted by a failed update does not record the minute and may be
re-entered within the same minute. -/
theorem c6_once_per_minute (t0 : ℕ) (its : List SchedIter)
    (hchain : IterChain t0 its) :
    (∀ x ∈ firedTimes (minuteOf t0) its, secondOf x = 0) ∧
    List.Sorted (fun a b => a < b)
      ((t0 / 60) :: (completedTimes (minuteOf t0) its).map (fun x => x / 60)) := by
  constructor
  · exact firedTimes_second its (minuteOf t0)
  · refine completedTimes_sorted its t0 (t0 / 60) (minuteOf t0) hchain ?_
    intro c hc hcs hcd
    have hd : t0 / 60 ≤ c / 60 := Nat.div_le_div_right hc
    have heq : c / 60 = t0 / 60 := le_antisymm hcd hd
    show c / 60 % 60 = t0 / 60 % 60
    rw [heq]

/-- Witness for C6 on the example trace: cycles complete in absolute minutes
1 and 2 after a start in minute 0. -/
theorem c6_witness :
    List.Sorted (fun a b => a < b)
      ((30 / 60) :: (completedTimes (minuteOf 30) exTrace).map (fun x => x / 60)) :=
  (c6_once_per_minute 30 exTrace (by decide)).2

/-- Counterexample for C7 as stated: a feed failure on the price fetch aborts
`update_history` after the same symbol's factor series was already merged, so
not all previously stored series are left untouched. -/
theorem c7_counterexample :
    (update_history exFailUpdate).2.2 = false ∧
    (update_history exFailUpdate).1 ≠ [(([] : Series ℕ), ([] : Series ℕ))] := by
  decide

/-- Claim C7 (amended): if the per-cycle history update fails, the cycle
aborts with no orders attempted, and the store decomposes at the failure
point: every symbol before it keeps the complete merge of both its series
with the successfully fetched windows (not rolled back), the failing symbol's
series whose own fetch failed are untouched (only a factor series whose fetch
succeeded before the price fetch failed holds its complete merge), and every
symbol after the failure point is untouched.  In particular every stored
series is either untouched or a complete merge — never a partial one. -/
theorem c7_failed_update {α : Type} (tc tp sl cash : ℚ)
    (us : List (SymbolUpdate α)) (assets : List AssetEnv)
    (hfail : (update_history us).2.2 = false) :
    fullCycleOrders tc tp sl cash us assets = [] ∧
    List.Forall₂ UntouchedOrMerged (update_history us).1 us ∧
    ∃ pre u post outPre outU,
      us = pre ++ u :: post ∧
      (update_history us).1 =
        outPre ++ outU :: post.map (fun v => (v.history, v.price_history)) ∧
      List.Forall₂ FullyMerged outPre pre ∧
      FailedAt outU u := by
  refine ⟨?_, update_history_untouchedOrMerged us, update_history_fail_decomp us hfail⟩
  simp [fullCycleOrders, hfail]

/-- Witness for C7 on the concrete failing update. -/
theorem c7_witness :
    fullCycleOrders ALPACA_TC 2 2 10000 exFailUpdate [] = [] ∧
    List.Forall₂ UntouchedOrMerged (update_history exFailUpdate).1 exFailUpdate ∧
    ∃ pre u post outPre outU,
      exFailUpdate = pre ++ u :: post ∧
      (update_history exFailUpdate).1 =
        outPre ++ outU :: post.map (fun v => (v.history, v.price_history)) ∧
      List.Forall₂ FullyMerged outPre pre ∧
      FailedAt outU u :=
  c7_failed_update ALPACA_TC 2 2 10000 exFailUpdate [] (by decide)

/-- Claim C8 (code bug): for a strategy name with no registered
implementation, `get_signal` falls through and returns the no-signal value 0
instead of signalling an unknown-strategy condition; the same statistic that
yields a buy signal under "macd" yields 0 under the unknown name "vwap", so
the two conditions are indistinguishable to the caller. -/
theorem c8_unknown_strategy_returns_zero :
    get_signal 5 ['v', 'w', 'a', 'p'] = 0 ∧ get_signal 5 macdName = 1 := by
  decide

/-- Counterexample for C9 as stated: the open-position lookup for "BTC/USD"
passes the slash-stripped "BTCUSD" to the broker, not the slash-delimited
form. -/
theorem c9_counterexample :
    (processAsset ALPACA_TC 2 2 0 ⟨exBtcSymbol, 0, 1, 0, false, 0⟩).posQuerySymbol
      ≠ exBtcSymbol := by
  rw [processAsset_posQuery]
  decide

/-- Claim C9 (amended): order submission passes the slash-delimited symbol to
the broker unchanged, while open-position lookup and position close pass the
slash-stripped form; every feed call during `update_history` passes the
slash-stripped form of a tradable symbol. -/
theorem c9_symbol_translation {α : Type} (tc tp sl cash : ℚ)
    (assets : List AssetEnv) (us : List (SymbolUpdate α)) (s : List Char) :
    List.Forall₂ (fun r a =>
        r.posQuerySymbol = stripSlash a.symbol ∧
        ∀ o, r.order = some o → o.symbol = a.symbol)
      (runCycle tc tp sl cash assets) assets ∧
    (∀ q ∈ (update_history us).2.1, ∃ u ∈ us, q = stripSlash u.symbol) ∧
    close_position_broker_symbol s = stripSlash s := by
  refine ⟨?_, update_history_queries us, rfl⟩
  simp only [runCycle]
  refine forall₂_map_self _ _ (fun a => ⟨processAsset_posQuery _ _ _ _ a, ?_⟩) assets
  intro o ho
  rw [processAsset_some ho]

/-- Claim C10: every order the live loop ever submits is a BUY with GTC
time-in-force and attached take-profit and stop-loss legs; the loop never
submits a sell order. -/
theorem c10_only_buy_bracket {α : Type} (tc tp sl cash : ℚ)
    (us : List (SymbolUpdate α)) (assets : List AssetEnv) (o : Order)
    (ho : o ∈ fullCycleOrders tc tp sl cash us assets) :
    o.side = Side.buy ∧ o.side ≠ Side.sell ∧ o.time_in_force = Tif.gtc ∧
    o.take_profit.isSome = true ∧ o.stop_loss.isSome = true := by
  rw [fullCycleOrders] at ho
  by_cases hok : (update_history us).2.2 = true
  · rw [if_pos hok] at ho
    obtain ⟨r, hr, hro⟩ := List.mem_filterMap.mp ho
    rw [runCycle] at hr
    obtain ⟨a, _, ha⟩ := List.mem_map.mp hr
    subst ha
    rw [processAsset_some hro]
    exact ⟨rfl, fun h => Side.noConfusion h, rfl, rfl, rfl⟩
  · rw [if_neg hok] at ho
    exact absurd ho (List.not_mem_nil o)

/-- Witness for C10: the concrete full cycle submits one order, a GTC BUY
with both bracket legs. -/
theorem c10_witness :
    (⟨['B'], 9, Side.buy, Tif.gtc, some 110, some 90⟩ : Order).side = Side.buy ∧
    (⟨['B'], 9, Side.buy, Tif.gtc, some 110, some 90⟩ : Order).side ≠ Side.sell ∧
    (⟨['B'], 9, Side.buy, Tif.gtc, some 110, some 90⟩ : Order).time_in_force = Tif.gtc ∧
    (⟨['B'], 9, Side.buy, Tif.gtc, some 110, some 90⟩ : Order).take_profit.isSome = true ∧
    (⟨['B'], 9, Side.buy, Tif.gtc, some 110, some 90⟩ : Order).stop_loss.isSome = true :=
  c10_only_buy_bracket ALPACA_TC 2 2 1000 exOkUpdate [exAsset]
    ⟨['B'], 9, Side.buy, Tif.gtc, some 110, some 90⟩ (by
      have hful : fullCycleOrders ALPACA_TC 2 2 1000 exOkUpdate [exAsset] =
          [⟨['B'], 9, Side.buy, Tif.gtc, some 110, some 90⟩] := by
        norm_num [fullCycleOrders, runCycle, processAsset, exAsset, exOkUpdate,
          cash_asset, pyInt, get_signal, macdName, clampVol, ALPACA_TC,
          take_profit_price, stop_loss_price, min_def, max_def, update_history,
          List.filterMap_cons, List.filterMap_nil]
      rw [hful]
      exact List.mem_singleton.mpr rfl)

end AlpacaLumnis
